import Mathlib

/-!
Verification of the map phase of the dgraph bulk loader
(`dgraph/cmd/bulk/mapper.go`), against its natural-language specification.

The Go source is shallowly embedded below: pure helpers become Lean
functions, the stateful statement-processing pipeline becomes explicit
state passing over a UID table, fatal aborts (`x.AssertTrue`, `x.Check`,
`log.Fatalf`) become an `Except` error, and the bounded recursion between
`processNQuad` and `lookupUid` is expressed with an explicit fuel
parameter.  External collaborators of the file (schema lookup, tokenizers,
type conversion, the statement parser) are fields of an `Env` record, as
the spec treats them as interfaces.
-/

namespace MapperSpec

/-! ## Byte-string comparison (`bytes.Compare`) -/

/-- Lexicographic comparison of byte strings, the embedding of Go
`bytes.Compare`: compare bytes left to right, a strict prefix is smaller. -/
def cmpBytes : List Nat → List Nat → Ordering
  | [], [] => .eq
  | [], _ :: _ => .lt
  | _ :: _, [] => .gt
  | a :: as, b :: bs =>
    match compare a b with
    | .eq => cmpBytes as bs
    | o => o

/-! ## Data model -/

/-- Facet annotation on an edge (`api.Facet`): a key and opaque value bytes. -/
structure Facet where
  key : List Nat
  value : List Nat
  deriving DecidableEq, Repr

/-- Posting kind (`intern.Posting_PostingType`): reference to a node,
plain value, or language-tagged value. -/
inductive PostingType where
  | ref
  | value
  | valueLang
  deriving DecidableEq, Repr

/-- Posting record (`intern.Posting`), restricted to the fields the mapper
populates: target/disambiguator UID, value bytes, value type, posting kind
and facet list. -/
structure Posting where
  uid : Nat
  value : List Nat
  valType : Nat
  postingType : PostingType
  facets : List Facet
  deriving DecidableEq, Repr

/-- Map entry (`intern.MapEntry`): a sort key plus a payload that is either
a bare UID (proto3 default `0` when unset) or a full posting. -/
structure MapEntry where
  key : List Nat
  uid : Nat
  posting : Option Posting
  deriving DecidableEq, Repr

/-- Directed edge (`intern.DirectedEdge`) before posting construction. -/
structure DirectedEdge where
  entity : Nat
  valueId : Nat
  attr : String
  value : List Nat
  valueType : Nat
  lang : List Nat
  facets : List Facet
  deriving DecidableEq, Repr

/-- Typed literal object of a statement (`api.Value` after conversion to
storage bytes). -/
structure PVal where
  bytes : List Nat
  typ : Nat
  deriving DecidableEq, Repr

/-- Parsed statement (`gql.NQuad` wrapping `api.NQuad`). -/
structure NQuad where
  subject : String
  predicate : String
  objectId : String
  objectValue : Option PVal
  lang : List Nat
  facets : List Facet
  deriving DecidableEq, Repr

/-- Schema directive (`intern.SchemaUpdate_Directive`). -/
inductive Directive where
  | none
  | reverse
  | index
  deriving DecidableEq, Repr

/-- Per-predicate schema descriptor (`intern.SchemaUpdate`), restricted to
the fields the mapper reads: value type, list flag, directive, tokenizers. -/
structure Schema where
  valueType : Nat
  list : Bool
  directive : Directive
  tokenizer : List String
  deriving DecidableEq, Repr

/-- Failure reasons of the pipeline.  `fuel` marks exhaustion of the
explicit recursion fuel; all other constructors embed fatal process aborts
(`x.AssertTrue`, `x.Check`, `log.Fatalf`) or the recoverable statement
errors returned by `processRDF`. -/
inductive Failure where
  | fuel
  | typeMismatch
  | reverseOnValue
  | unknownTokenizer
  | convertFail
  | parseErr
  | facetErr
  deriving DecidableEq, Repr

/-- Environment of external collaborators: schema lookup, tokenizers,
storage-to-schema value conversion, the statement parser, and the run
options read by the mapper. -/
structure Env where
  schema : String → Schema
  tokenizers : String → Option (List Nat → List (List Nat))
  convert : List Nat → Nat → Nat → Option (List Nat)
  storeXids : Bool
  expandEdges : Bool
  ignoreErrors : Bool

/-! ## Hashing and keys -/

/-- Modelled from the spec: `farm.Fingerprint64` (an external library) is
"a hash" producing a 64-bit disambiguator ID; it is modelled here by the
FNV-1a 64-bit hash, a deterministic function of the byte string whose
result always lies below `2^64`. -/
def fingerprint64 (bs : List Nat) : Nat :=
  bs.foldl (fun h b => ((h ^^^ b) * 1099511628211) % 2 ^ 64) 14695981039346656037

/-- Byte string of a Lean string, used to embed predicate names into keys
and values (code points, an injective stand-in for UTF-8 bytes). -/
def strBytes (s : String) : List Nat :=
  s.data.map Char.toNat

/-- Modelled from the spec: `x.DataKey` (external `x` package) produces the
ordered byte key of a forward entry, encoding predicate and subject node. -/
def dataKey (attr : String) (uid : Nat) : List Nat :=
  0 :: strBytes attr ++ [0, uid]

/-- Modelled from the spec: `x.ReverseKey` (external `x` package) produces
the ordered byte key of a reverse entry, encoding predicate and object node. -/
def reverseKey (attr : String) (uid : Nat) : List Nat :=
  1 :: strBytes attr ++ [0, uid]

/-- Modelled from the spec: `x.IndexKey` (external `x` package) produces
the ordered byte key of an index entry, encoding predicate and token. -/
def indexKey (attr : String) (term : List Nat) : List Nat :=
  2 :: strBytes attr ++ 0 :: term

/-! ## Posting construction -/

/-- Modelled from the spec: `posting.NewPosting` (repository code outside
this file) builds the posting of an edge — target ID is the edge
destination ID, kind is reference for node destinations and (language-)
value for literal destinations. -/
def newPosting (de : DirectedEdge) : Posting :=
  { uid := de.valueId
    value := de.value
    valType := de.valueType
    postingType :=
      if de.lang ≠ [] then .valueLang
      else if de.value = [] then .ref
      else .value
    facets := [] }

/-- Modelled from the spec: `gql.NQuad.CreateUidEdge` (repository code
outside this file) builds a node-typed edge from resolved subject and
object IDs. -/
def createUidEdge (nq : NQuad) (sid oid : Nat) : DirectedEdge :=
  { entity := sid, valueId := oid, attr := nq.predicate,
    value := [], valueType := 0, lang := nq.lang, facets := nq.facets }

/-- Modelled from the spec: `gql.NQuad.CreateValueEdge` (repository code
outside this file) builds a value-typed edge from the resolved subject ID
and the statement literal. -/
def createValueEdge (nq : NQuad) (v : PVal) (sid : Nat) : DirectedEdge :=
  { entity := sid, valueId := 0, attr := nq.predicate,
    value := v.bytes, valueType := v.typ, lang := nq.lang, facets := nq.facets }

/-- Modelled from the spec: `schema.validateType` (repository code outside
this file) validates a literal against the predicate schema type — it
passes always for node destinations, and for literals exactly when the
storage value converts to the declared schema type. -/
def validateTypeOk (env : Env) (de : DirectedEdge) (objectIsUid : Bool) : Bool :=
  objectIsUid || (env.convert de.value de.valueType (env.schema de.attr).valueType).isSome

/-- Embedding of `(*mapper).addMapEntry`: the map-entry construction step.
A full posting is attached when the posting is not a plain reference or
carries facets, otherwise only the bare UID is stored. -/
def addMapEntry (key : List Nat) (p : Posting) : MapEntry :=
  if p.postingType ≠ .ref ∨ p.facets ≠ [] then
    { key := key, uid := 0, posting := some p }
  else
    { key := key, uid := p.uid, posting := none }

/-- Embedding of `(*mapper).createPredicatePosting`. -/
def createPredicatePosting (predicate : String) : Posting :=
  { uid := fingerprint64 (strBytes predicate)
    value := strBytes predicate
    valType := 0
    postingType := .value
    facets := [] }

/-- Embedding of `(*mapper).createPostings`: validates the edge, builds the
forward posting (choosing the disambiguator UID of a value edge from
language tag, list-valued value hash, or the `math.MaxUint64` sentinel),
and, under a reverse schema directive, swaps the edge in place, builds the
reverse posting and swaps the edge back.  The returned `DirectedEdge` is
the state of the edge object on return. -/
def createPostings (env : Env) (nq : NQuad) (de : DirectedEdge) :
    Except Failure (Posting × Option Posting × DirectedEdge) :=
  if validateTypeOk env de nq.objectValue.isNone = false then
    .error .typeMismatch
  else
    let p0 := newPosting de
    let sch := env.schema nq.predicate
    let p1 :=
      if nq.objectValue.isSome then
        { p0 with uid :=
            if de.lang ≠ [] then fingerprint64 de.lang
            else if sch.list then fingerprint64 de.value
            else 2 ^ 64 - 1 }
      else p0
    let p := { p1 with facets := nq.facets }
    if sch.directive ≠ .reverse then
      .ok (p, none, de)
    else if nq.objectValue.isSome then
      .error .reverseOnValue
    else
      let de1 : DirectedEdge := { de with entity := de.valueId, valueId := de.entity }
      if validateTypeOk env de1 true = false then
        .error .typeMismatch
      else
        let rp := newPosting de1
        let de2 : DirectedEdge := { de1 with entity := de1.valueId, valueId := de1.entity }
        .ok (p, some rp, de2)

/-- Tokenizer loop of `(*mapper).addIndexMapEntries`: for each declared
tokenizer name, look the tokenizer up (fatal if unknown), convert the
stored value to the schema type (fatal if inconvertible) and emit one
reference-only entry per produced token. -/
def indexLoop (env : Env) (nq : NQuad) (de : DirectedEdge) (sch : Schema) :
    List String → Except Failure (List MapEntry)
  | [] => .ok []
  | name :: names =>
    match env.tokenizers name with
    | none => .error .unknownTokenizer
    | some tokFn =>
      match env.convert de.value de.valueType sch.valueType with
      | none => .error .convertFail
      | some schemaVal =>
        match indexLoop env nq de sch names with
        | .error e => .error e
        | .ok rest =>
          .ok ((tokFn schemaVal).map (fun t =>
            addMapEntry (indexKey nq.predicate t)
              { uid := de.entity, value := [], valType := 0,
                postingType := .ref, facets := [] }) ++ rest)

/-- Embedding of `(*mapper).addIndexMapEntries`: value-typed edges only
(node references are never indexed). -/
def addIndexMapEntries (env : Env) (nq : NQuad) (de : DirectedEdge) :
    Except Failure (List MapEntry) :=
  if nq.objectValue.isNone then
    .ok []
  else
    indexLoop env nq de (env.schema nq.predicate) (env.schema nq.predicate).tokenizer

/-! ## UID resolution and the statement pipeline -/

/-- Shared UID table: assignments so far plus the next fresh ID. -/
structure XidMap where
  assigned : List (String × Nat)
  next : Nat
  deriving DecidableEq, Repr

/-- Association-list lookup over the UID table. -/
def lookupAssigned : List (String × Nat) → String → Option Nat
  | [], _ => none
  | (k, v) :: rest, x => if k = x then some v else lookupAssigned rest x

/-- Modelled from the spec: `xidmap.AssignUid` (repository code outside
this file) is the idempotent get-or-create of the UID table — the first
resolution of an identifier allocates a fresh ID and reports `isNew`,
every later resolution returns the same ID. -/
def assignUid (st : XidMap) (xid : String) : Nat × Bool × XidMap :=
  match lookupAssigned st.assigned xid with
  | some uid => (uid, false, st)
  | none => (st.next, true,
      { assigned := (xid, st.next) :: st.assigned, next := st.next + 1 })

/-- Embedding of `strings.HasPrefix(xid, "_:")`: the blank-node test. -/
def isBlankNode (s : String) : Bool :=
  match s.data with
  | '_' :: ':' :: _ => true
  | _ => false

/-- Synthetic external-identifier statement built by `lookupUid`:
predicate `"xid"`, object the identifier string itself. -/
def xidNQuad (xid : String) : NQuad :=
  { subject := xid, predicate := "xid", objectId := "",
    objectValue := some { bytes := strBytes xid, typ := 0 },
    lang := [], facets := [] }

/-- Emission part of `(*mapper).processNQuad` after UID resolution:
forward entry keyed by `DataKey(predicate, sid)`, reverse entry (when
built) keyed by `ReverseKey(predicate, oid)`, index entries, and the
predicate-list entry when `ExpandEdges` is set. -/
def emitEntries (env : Env) (nq : NQuad) (sid oid : Nat) (de : DirectedEdge) :
    Except Failure (List MapEntry) :=
  match createPostings env nq de with
  | .error e => .error e
  | .ok (fwd, rev, de2) =>
    let fwdEntry := addMapEntry (dataKey nq.predicate sid) fwd
    let revEntries :=
      match rev with
      | none => []
      | some rp => [addMapEntry (reverseKey nq.predicate oid) rp]
    match addIndexMapEntries env nq de2 with
    | .error e => .error e
    | .ok idx =>
      let expand :=
        if env.expandEdges then
          [addMapEntry (dataKey "_predicate_" sid) (createPredicatePosting nq.predicate)]
        else []
      .ok (fwdEntry :: revEntries ++ idx ++ expand)

/-- Embedding of `(*mapper).lookupUid`, parameterized by the recursive
re-entry into statement processing: resolve via `AssignUid`; when the
identifier is newly allocated, `StoreXids` is set and the identifier is
not a blank node, feed the synthetic `"xid"` statement through the full
pipeline (`recur`) before returning. -/
def lookupUidGo (env : Env)
    (recur : XidMap → NQuad → Except Failure (XidMap × List MapEntry × List NQuad))
    (st : XidMap) (xid : String) :
    Except Failure (Nat × XidMap × List MapEntry × List NQuad) :=
  match assignUid st xid with
  | (uid, isNew, st1) =>
    if isNew = false ∨ env.storeXids = false then
      .ok (uid, st1, [], [])
    else if isBlankNode xid then
      .ok (uid, st1, [], [])
    else
      match recur st1 (xidNQuad xid) with
      | .error e => .error e
      | .ok (st2, out, log) => .ok (uid, st2, out, log)

/-- Embedding of `(*mapper).processNQuad` with explicit fuel for the
recursion through `lookupUid`.  Returns the updated UID table, the map
entries emitted (in emission order), and the trace of statements processed
(synthetic statements first, the statement itself last). -/
def processNQuadF : Nat → Env → XidMap → NQuad →
    Except Failure (XidMap × List MapEntry × List NQuad)
  | 0, _, _, _ => .error .fuel
  | fuel + 1, env, st, nq =>
    match lookupUidGo env (fun st2 nq2 => processNQuadF fuel env st2 nq2)
        st nq.subject with
    | .error e => .error e
    | .ok (sid, st1, out1, log1) =>
      match nq.objectValue with
      | none =>
        match lookupUidGo env (fun st2 nq2 => processNQuadF fuel env st2 nq2)
            st1 nq.objectId with
        | .error e => .error e
        | .ok (oid, st2, out2, log2) =>
          match emitEntries env nq sid oid (createUidEdge nq sid oid) with
          | .error e => .error e
          | .ok es => .ok (st2, out1 ++ out2 ++ es, log1 ++ log2 ++ [nq])
      | some v =>
        match emitEntries env nq sid 0 (createValueEdge nq v sid) with
        | .error e => .error e
        | .ok es => .ok (st1, out1 ++ es, log1 ++ [nq])

/-- Embedding of `(*mapper).lookupUid` at a given fuel level. -/
def lookupUidF (fuel : Nat) (env : Env) (st : XidMap) (xid : String) :
    Except Failure (Nat × XidMap × List MapEntry × List NQuad) :=
  lookupUidGo env (fun st2 nq2 => processNQuadF fuel env st2 nq2) st xid

/-- Sequential processing of a batch of parsed statements, threading the
UID table and concatenating emitted entries. -/
def runBatch (fuel : Nat) (env : Env) (st : XidMap) :
    List NQuad → Except Failure (XidMap × List MapEntry)
  | [] => .ok (st, [])
  | nq :: nqs =>
    match processNQuadF fuel env st nq with
    | .error e => .error e
    | .ok (st1, out, _) =>
      match runBatch fuel env st1 nqs with
      | .error e => .error e
      | .ok (st2, outs) => .ok (st2, out ++ outs)

/-! ## Statement parsing and the worker loop -/

/-- Result of the external statement parser (`rdf.Parse`, repository code
outside this file), classified as the spec does: empty statement,
malformed statement, or a parsed quad. -/
inductive ParseResult where
  | empty
  | malformed
  | parsed (nq : NQuad)

/-- Parsing environment: the external statement parser and the external
facet sorter/validator (`facets.SortAndValidate`), modelled from the spec
at their interfaces. -/
structure ParseEnv where
  parse : String → ParseResult
  validateFacets : List Facet → Option (List Facet)

/-- Embedding of `(*mapper).processRDF`: an empty statement is silently
ignored; a parse failure or a facet-validation failure is returned as a
recoverable error; otherwise the quad is processed. -/
def processRDF (fuel : Nat) (penv : ParseEnv) (env : Env) (st : XidMap)
    (line : String) : Except Failure (XidMap × List MapEntry × List NQuad) :=
  match penv.parse line with
  | .empty => .ok (st, [], [])
  | .malformed => .error .parseErr
  | .parsed nq =>
    match penv.validateFacets nq.facets with
    | none => .error .facetErr
    | some fs => processNQuadF fuel env st { nq with facets := fs }

/-- Worker-loop counters and accumulated output. -/
structure LoopState where
  xids : XidMap
  entries : List MapEntry
  errCount : Nat
  rdfCount : Nat
  deriving Repr

/-- Whether a pipeline failure is one of the recoverable statement errors
returned by `processRDF` to the worker loop (everything else is a fatal
abort raised inside processing and never returns to the loop). -/
def Failure.recoverable : Failure → Bool
  | .parseErr => true
  | .facetErr => true
  | _ => false

/-- Embedding of one iteration of `(*mapper).run` on one statement line:
on a recoverable error the error counter is bumped and the process aborts
unless `IgnoreErrors` is set, in which case the line is skipped; fatal
errors abort directly; the statement counter is bumped on every
non-aborting path. -/
def runLine (fuel : Nat) (penv : ParseEnv) (env : Env) (ls : LoopState)
    (line : String) : Except Failure LoopState :=
  match processRDF fuel penv env ls.xids line with
  | .ok (st1, out, _) =>
    .ok { ls with xids := st1, entries := ls.entries ++ out,
                  rdfCount := ls.rdfCount + 1 }
  | .error e =>
    if e.recoverable then
      if env.ignoreErrors then
        .ok { ls with errCount := ls.errCount + 1, rdfCount := ls.rdfCount + 1 }
      else .error e
    else .error e

/-! ## Sorting of map entries (`less` and the flush sort) -/

/-- Tie-break ID of a map entry: the posting target UID when a posting
payload is present, otherwise the bare UID. -/
def tieUid (e : MapEntry) : Nat :=
  match e.posting with
  | some p => p.uid
  | none => e.uid

/-- Embedding of `less`: primary lexicographic comparison of key bytes,
secondary comparison of the tie-break IDs. -/
def less (lhs rhs : MapEntry) : Bool :=
  match cmpBytes lhs.key rhs.key with
  | .lt => true
  | .gt => false
  | .eq => tieUid lhs < tieUid rhs

/-- Non-strict order underlying `less`, used by the flush sort. -/
def mapLE (a b : MapEntry) : Prop := less b a = false

instance : DecidableRel mapLE := fun a b => by
  unfold mapLE; infer_instance

/-- Flush-time sort of decoded entries, the embedding of
`sort.Slice(entries, less)`. -/
def sortEntries (es : List MapEntry) : List MapEntry :=
  es.insertionSort mapLE

/-! ## Wire encoding of the entry buffer

The buffer format of a shard (`x.AppendUvarint` plus the proto encoding of
a `MapEntry`) is a sequence of records, each a varint length prefix
followed by that many body bytes.  The varint is Go `binary.PutUvarint`
(little-endian base-128 groups with a continuation bit); the record body
is modelled from the spec as a deterministic, lossless, self-describing
encoding of the entry fields. -/

/-- Fueled worker for `uvarint`; fuel at least `n` always suffices. -/
def uvarintAux : Nat → Nat → List Nat
  | 0, n => [n % 128]
  | fuel + 1, n =>
    if n < 128 then [n] else (n % 128 + 128) :: uvarintAux fuel (n / 128)

/-- Embedding of `binary.PutUvarint`: little-endian 7-bit groups, high bit
set on every byte but the last. -/
def uvarint (n : Nat) : List Nat :=
  uvarintAux n n

/-- Embedding of `binary.Uvarint` on a byte list: returns the decoded
value and the remaining bytes. -/
def parseUvarint : List Nat → Option (Nat × List Nat)
  | [] => none
  | b :: rest =>
    if b < 128 then some (b, rest)
    else
      match parseUvarint rest with
      | none => none
      | some (v, r) => some (v * 128 + (b - 128), r)

/-- Length-checked split of a byte list: the first `n` bytes and the rest. -/
def takeN (n : Nat) (l : List Nat) : Option (List Nat × List Nat) :=
  if l.length < n then none else some (l.take n, l.drop n)

/-- Length-prefixed byte string. -/
def encBytes (bs : List Nat) : List Nat :=
  uvarint bs.length ++ bs

/-- Parse a length-prefixed byte string. -/
def parseBytes (l : List Nat) : Option (List Nat × List Nat) :=
  match parseUvarint l with
  | none => none
  | some (n, r) => takeN n r

/-- Numeric code of a posting type on the wire. -/
def ptCode : PostingType → Nat
  | .ref => 0
  | .value => 1
  | .valueLang => 2

/-- Decode of a posting-type code. -/
def ptOfCode : Nat → Option PostingType
  | 0 => some .ref
  | 1 => some .value
  | 2 => some .valueLang
  | _ => none

/-- Wire encoding of one facet. -/
def encFacet (f : Facet) : List Nat :=
  encBytes f.key ++ encBytes f.value

/-- Parse one facet. -/
def parseFacet (l : List Nat) : Option (Facet × List Nat) :=
  match parseBytes l with
  | none => none
  | some (k, r1) =>
    match parseBytes r1 with
    | none => none
    | some (v, r2) => some ({ key := k, value := v }, r2)

/-- Parse a counted sequence with an element parser. -/
def parseCount {α : Type} (p : List Nat → Option (α × List Nat)) :
    Nat → List Nat → Option (List α × List Nat)
  | 0, l => some ([], l)
  | k + 1, l =>
    match p l with
    | none => none
    | some (a, r) =>
      match parseCount p k r with
      | none => none
      | some (as, r2) => some (a :: as, r2)

/-- Wire encoding of a posting record. -/
def encPosting (p : Posting) : List Nat :=
  uvarint p.uid ++ uvarint (ptCode p.postingType) ++ uvarint p.valType ++
    encBytes p.value ++ uvarint p.facets.length ++ (p.facets.map encFacet).flatten

/-- Parse a posting record. -/
def parsePosting (l : List Nat) : Option (Posting × List Nat) :=
  match parseUvarint l with
  | none => none
  | some (uid, r1) =>
    match parseUvarint r1 with
    | none => none
    | some (tc, r2) =>
      match ptOfCode tc with
      | none => none
      | some t =>
        match parseUvarint r2 with
        | none => none
        | some (vt, r3) =>
          match parseBytes r3 with
          | none => none
          | some (v, r4) =>
            match parseUvarint r4 with
            | none => none
            | some (nf, r5) =>
              match parseCount parseFacet nf r5 with
              | none => none
              | some (fs, r6) =>
                some ({ uid := uid, value := v, valType := vt,
                        postingType := t, facets := fs }, r6)

/-- Wire encoding of the body of one map entry (the proto message bytes). -/
def encEntryBody (me : MapEntry) : List Nat :=
  encBytes me.key ++ uvarint me.uid ++
    (match me.posting with
     | none => [0]
     | some p => 1 :: encPosting p)

/-- Parse the body of one map entry. -/
def parseEntryBody (l : List Nat) : Option (MapEntry × List Nat) :=
  match parseBytes l with
  | none => none
  | some (k, r1) =>
    match parseUvarint r1 with
    | none => none
    | some (uid, r2) =>
      match r2 with
      | 0 :: r3 => some ({ key := k, uid := uid, posting := none }, r3)
      | 1 :: r3 =>
        match parsePosting r3 with
        | none => none
        | some (p, r4) => some ({ key := k, uid := uid, posting := some p }, r4)
      | _ => none

/-- Wire encoding of one record of the shard buffer: varint length prefix
(`x.AppendUvarint` of `me.Size()`) followed by the body bytes
(`x.AppendProtoMsg`). -/
def encEntry (me : MapEntry) : List Nat :=
  encBytes (encEntryBody me)

/-- Embedding of the whole shard buffer for a list of appended entries. -/
def encBuffer (es : List MapEntry) : List Nat :=
  (es.map encEntry).flatten

/-- Decode one record of the buffer: read the length prefix, then
unmarshal exactly that many body bytes (`proto.Unmarshal` consumes the
whole slice). -/
def decodeEntry (l : List Nat) : Option (MapEntry × List Nat) :=
  match parseBytes l with
  | none => none
  | some (body, rest) =>
    match parseEntryBody body with
    | none => none
    | some (me, leftover) =>
      if leftover = [] then some (me, rest) else none

/-- Fueled decode loop of `writeMapEntriesToFile`: repeat `decodeEntry`
until the buffer is exhausted. -/
def decodeEntriesAux : Nat → List Nat → Option (List MapEntry)
  | _, [] => some []
  | 0, _ :: _ => none
  | fuel + 1, l =>
    match decodeEntry l with
    | none => none
    | some (me, rest) =>
      match decodeEntriesAux fuel rest with
      | none => none
      | some es => some (me :: es)

/-- Decode a whole shard buffer back into entries. -/
def decodeBuffer (l : List Nat) : Option (List MapEntry) :=
  decodeEntriesAux l.length l

/-- Whether a pipeline result is the fuel-exhaustion failure of the
embedding (as opposed to a value or a genuine fatal abort of the code). -/
def isFuelErr {α : Type} : Except Failure α → Bool
  | .error .fuel => true
  | _ => false

/-- Embedding of `(*mapper).writeMapEntriesToFile` on the byte region of
one shard buffer: decode all records, sort them with `less`, re-encode in
sorted order.  The result is the byte content written to the map file;
`none` embeds a fatal decode abort. -/
def writeMapEntriesToFile (buf : List Nat) : Option (List Nat) :=
  match decodeBuffer buf with
  | none => none
  | some es => some (encBuffer (sortEntries es))

/-- Order of adjacent entries claimed for a flushed file: keys ascend
lexicographically, equal keys ascend by tie-break ID. -/
def adjacentOrdered (e1 e2 : MapEntry) : Prop :=
  cmpBytes e1.key e2.key ≠ .gt ∧ (e1.key = e2.key → tieUid e1 ≤ tieUid e2)

/-! ### Concrete fixtures used by witnesses -/

/-- Concrete map entry with a larger key. -/
def entA : MapEntry := { key := [1], uid := 5, posting := none }

/-- Concrete map entry with a smaller key. -/
def entB : MapEntry := { key := [0], uid := 3, posting := none }

/-- Concrete environment: trivial schema, identity conversion, no
tokenizers, all options off. -/
def env0 : Env :=
  { schema := fun _ => { valueType := 0, list := false, directive := .none, tokenizer := [] }
    tokenizers := fun _ => none
    convert := fun v _ _ => some v
    storeXids := false
    expandEdges := false
    ignoreErrors := false }

/-- Concrete value statement. -/
def nqV : NQuad :=
  { subject := "s", predicate := "p", objectId := "",
    objectValue := some { bytes := [49], typ := 0 }, lang := [], facets := [] }

/-- Concrete value edge for `nqV` with subject UID 7. -/
def deV : DirectedEdge := createValueEdge nqV { bytes := [49], typ := 0 } 7

/-- Forward posting produced for `deV` under `env0`: sentinel
disambiguator, value payload. -/
def pV : Posting :=
  { uid := 2 ^ 64 - 1, value := [49], valType := 0, postingType := .value, facets := [] }

/-- Forward posting built by `createPostings`: the posting of the edge
with the value-edge disambiguator UID and the statement facets attached. -/
def fwdPosting (env : Env) (nq : NQuad) (de : DirectedEdge) : Posting :=
  let p0 := newPosting de
  let sch := env.schema nq.predicate
  let p1 :=
    if nq.objectValue.isSome then
      { p0 with uid :=
          if de.lang ≠ [] then fingerprint64 de.lang
          else if sch.list then fingerprint64 de.value
          else 2 ^ 64 - 1 }
    else p0
  { p1 with facets := nq.facets }

/-- Edge with source and destination swapped. -/
def swapEdge (de : DirectedEdge) : DirectedEdge :=
  { de with entity := de.valueId, valueId := de.entity }

/-- Environment with a list-valued schema for every predicate. -/
def envL : Env :=
  { env0 with schema := fun _ =>
      { valueType := 0, list := true, directive := .none, tokenizer := [] } }

/-- Value statement carrying the given literal bytes. -/
def nqOf (v : List Nat) : NQuad :=
  { subject := "s", predicate := "p", objectId := "",
    objectValue := some { bytes := v, typ := 0 }, lang := [], facets := [] }

/-- Value edge of `nqOf v` with subject UID 1. -/
def deOf (v : List Nat) : DirectedEdge :=
  createValueEdge (nqOf v) { bytes := v, typ := 0 } 1

/-- Disambiguator UID assigned under the list schema to the value `v`. -/
def disambOf (v : List Nat) : Nat :=
  match createPostings envL (nqOf v) (deOf v) with
  | .ok (p, _, _) => p.uid
  | .error _ => 0

/-- Second concrete value statement, distinct literal from `nqV`. -/
def nqW : NQuad :=
  { subject := "t", predicate := "p", objectId := "",
    objectValue := some { bytes := [50], typ := 0 }, lang := [], facets := [] }

/-- Concrete value edge for `nqW` with subject UID 8. -/
def deW : DirectedEdge := createValueEdge nqW { bytes := [50], typ := 0 } 8

/-- Sentinel forward posting for `deW` under `env0`. -/
def pW : Posting :=
  { uid := 2 ^ 64 - 1, value := [50], valType := 0, postingType := .value, facets := [] }

/-- Environment with the reverse directive on every predicate. -/
def envR : Env :=
  { env0 with schema := fun _ =>
      { valueType := 0, list := false, directive := .reverse, tokenizer := [] } }

/-- Concrete node-object statement. -/
def nqU : NQuad :=
  { subject := "s", predicate := "k", objectId := "o",
    objectValue := none, lang := [], facets := [] }

/-- Number of index tokens the mapper produces for one statement: for a
value object, the per-tokenizer token counts of the converted value,
summed over the declared tokenizer names. -/
def tokenCount (env : Env) (nq : NQuad) : Nat :=
  match nq.objectValue with
  | none => 0
  | some v =>
    ((env.schema nq.predicate).tokenizer.map (fun name =>
      match env.tokenizers name,
        env.convert v.bytes v.typ (env.schema nq.predicate).valueType with
      | some tokFn, some sv => (tokFn sv).length
      | _, _ => 0)).sum

/-- Entry count the spec predicts for one statement: 1 forward, plus 1 for
a reverse directive on a node object, plus the tokens produced, plus 1
under predicate-list materialization. -/
def expectedCount (env : Env) (nq : NQuad) : Nat :=
  1 + (if (env.schema nq.predicate).directive = .reverse ∧ nq.objectValue = none
       then 1 else 0)
    + tokenCount env nq
    + (if env.expandEdges then 1 else 0)

/-- Environment `env0` with identifier retention enabled. -/
def envX : Env := { env0 with storeXids := true }

/-- Empty UID table; fresh IDs start at 1. -/
def xm0 : XidMap := { assigned := [], next := 1 }

/-- Value edge of `nqV` with subject resolved to UID 1. -/
def deV1 : DirectedEdge := createValueEdge nqV { bytes := [49], typ := 0 } 1

/-- UID table after resolving subject `"s"` of `nqV`. -/
def xm1 : XidMap := { assigned := [("s", 1)], next := 2 }

/-- Map entry emitted for `nqV` under `env0` with subject UID 1. -/
def entV : MapEntry := addMapEntry (dataKey "p" 1) (fwdPosting env0 nqV deV1)

/-- UID table after resolving the fresh identifier `"a"`. -/
def xmA : XidMap := { assigned := [("a", 1)], next := 2 }

/-- Map entry emitted for the synthetic `"xid"` statement of `"a"`. -/
def entXidA : MapEntry :=
  addMapEntry (dataKey "xid" 1)
    (fwdPosting envX (xidNQuad "a")
      (createValueEdge (xidNQuad "a") { bytes := strBytes "a", typ := 0 } 1))

/-- Concrete parsing environment: empty line parses empty, anything else
is malformed. -/
def penv0 : ParseEnv :=
  { parse := fun line => if line = "" then .empty else .malformed
    validateFacets := fun fs => some fs }

/-- Concrete starting loop state. -/
def ls0 : LoopState := { xids := xm0, entries := [], errCount := 0, rdfCount := 0 }

/-- Environment `env0` with ignore-errors configured. -/
def envI : Env := { env0 with ignoreErrors := true }

theorem cmpBytes_self (a : List Nat) : cmpBytes a a = .eq := by
  induction a with
  | nil => rfl
  | cons x xs ih => simp [cmpBytes, Nat.compare_eq_eq.2 rfl, ih]

theorem cmpBytes_eq_iff {a b : List Nat} : cmpBytes a b = .eq ↔ a = b := by
  constructor
  · intro h
    induction a generalizing b with
    | nil => cases b with
      | nil => rfl
      | cons y ys => simp [cmpBytes] at h
    | cons x xs ih =>
      cases b with
      | nil => simp [cmpBytes] at h
      | cons y ys =>
        simp only [cmpBytes] at h
        rcases hc : compare x y with hlt | heq | hgt
        · rw [hc] at h; exact absurd h (by simp)
        · rw [hc] at h
          have hxy : x = y := Nat.compare_eq_eq.1 hc
          rw [hxy, ih h]
        · rw [hc] at h; exact absurd h (by simp)
  · intro h; subst h; exact cmpBytes_self a

theorem cmpBytes_swap (a b : List Nat) : cmpBytes b a = (cmpBytes a b).swap := by
  induction a generalizing b with
  | nil => cases b <;> rfl
  | cons x xs ih =>
    cases b with
    | nil => rfl
    | cons y ys =>
      simp only [cmpBytes]
      rcases Nat.lt_trichotomy x y with hlt | heq | hgt
      · rw [Nat.compare_eq_lt.2 hlt, Nat.compare_eq_gt.2 hlt]; rfl
      · rw [Nat.compare_eq_eq.2 heq, Nat.compare_eq_eq.2 heq.symm]
        exact ih ys
      · rw [Nat.compare_eq_gt.2 hgt, Nat.compare_eq_lt.2 hgt]; rfl

theorem cmpBytes_lt_trans {a b c : List Nat} (h1 : cmpBytes a b = .lt)
    (h2 : cmpBytes b c = .lt) : cmpBytes a c = .lt := by
  induction a generalizing b c with
  | nil =>
    cases b with
    | nil => exact absurd h1 (by simp [cmpBytes])
    | cons y ys =>
      cases c with
      | nil => exact absurd h2 (by simp [cmpBytes])
      | cons z zs => simp [cmpBytes]
  | cons x xs ih =>
    cases b with
    | nil => exact absurd h1 (by simp [cmpBytes])
    | cons y ys =>
      cases c with
      | nil => exact absurd h2 (by simp [cmpBytes])
      | cons z zs =>
        simp only [cmpBytes] at h1 h2 ⊢
        rcases hxy : compare x y with _ | _ | _ <;> rw [hxy] at h1
        · have hxy' : x < y := Nat.compare_eq_lt.1 hxy
          rcases hyz : compare y z with _ | _ | _ <;> rw [hyz] at h2
          · have : x < z := Nat.lt_trans hxy' (Nat.compare_eq_lt.1 hyz)
            rw [Nat.compare_eq_lt.2 this]
          · have : x < z := Nat.compare_eq_eq.1 hyz ▸ hxy'
            rw [Nat.compare_eq_lt.2 this]
          · exact absurd h2 (by simp)
        · have hxy' : x = y := Nat.compare_eq_eq.1 hxy
          rcases hyz : compare y z with _ | _ | _ <;> rw [hyz] at h2
          · rw [Nat.compare_eq_lt.2 (hxy' ▸ Nat.compare_eq_lt.1 hyz)]
          · rw [Nat.compare_eq_eq.2 (hxy'.trans (Nat.compare_eq_eq.1 hyz))]
            exact ih h1 h2
          · exact absurd h2 (by simp)
        · exact absurd h1 (by simp)

theorem fingerprint64_lt (bs : List Nat) : fingerprint64 bs < 2 ^ 64 := by
  have gen : ∀ (l : List Nat) (h : Nat), h < 2 ^ 64 →
      l.foldl (fun h b => ((h ^^^ b) * 1099511628211) % 2 ^ 64) h < 2 ^ 64 := by
    intro l
    induction l with
    | nil => intro h hh; simpa using hh
    | cons x xs ih =>
      intro h _
      exact ih _ (Nat.mod_lt _ (by norm_num))
  exact gen bs _ (by norm_num)

theorem processNQuadF_succ (fuel : Nat) (env : Env) (st : XidMap) (nq : NQuad) :
    processNQuadF (fuel + 1) env st nq =
      match lookupUidF fuel env st nq.subject with
      | .error e => .error e
      | .ok (sid, st1, out1, log1) =>
        match nq.objectValue with
        | none =>
          match lookupUidF fuel env st1 nq.objectId with
          | .error e => .error e
          | .ok (oid, st2, out2, log2) =>
            match emitEntries env nq sid oid (createUidEdge nq sid oid) with
            | .error e => .error e
            | .ok es => .ok (st2, out1 ++ out2 ++ es, log1 ++ log2 ++ [nq])
        | some v =>
          match emitEntries env nq sid 0 (createValueEdge nq v sid) with
          | .error e => .error e
          | .ok es => .ok (st1, out1 ++ es, log1 ++ [nq]) := rfl

theorem less_iff {a b : MapEntry} :
    less a b = true ↔
      cmpBytes a.key b.key = .lt ∨
        (a.key = b.key ∧ tieUid a < tieUid b) := by
  unfold less
  rcases h : cmpBytes a.key b.key with _ | _ | _
  · exact ⟨fun _ => Or.inl rfl, fun _ => rfl⟩
  · have hk : a.key = b.key := cmpBytes_eq_iff.1 h
    simp [hk]
  · constructor
    · intro hf; exact absurd hf (by simp)
    · rintro (hlt | ⟨hk, _⟩)
      · exact absurd hlt (by simp)
      · rw [hk, cmpBytes_self] at h
        exact absurd h (by simp)

theorem mapLE_iff {a b : MapEntry} :
    mapLE a b ↔
      cmpBytes a.key b.key = .lt ∨
        (a.key = b.key ∧ tieUid a ≤ tieUid b) := by
  unfold mapLE
  rw [← Bool.not_eq_true, less_iff]
  have hswap := cmpBytes_swap a.key b.key
  constructor
  · intro h
    push_neg at h
    rcases hc : cmpBytes a.key b.key with _ | _ | _
    · exact Or.inl rfl
    · have hk : a.key = b.key := cmpBytes_eq_iff.1 hc
      refine Or.inr ⟨hk, ?_⟩
      have := h.2 hk.symm
      omega
    · exfalso
      exact h.1 (by rw [hswap, hc]; rfl)
  · intro h
    push_neg
    rcases h with hlt | ⟨hk, hle⟩
    · constructor
      · rw [hswap, hlt]; decide
      · intro hk
        rw [hk, cmpBytes_self] at hlt
        exact absurd hlt (by simp)
    · constructor
      · rw [hk, cmpBytes_self]; decide
      · intro _
        omega

theorem mapLE_total : ∀ a b : MapEntry, mapLE a b ∨ mapLE b a := by
  intro a b
  rw [mapLE_iff, mapLE_iff]
  have hswap := cmpBytes_swap a.key b.key
  rcases hc : cmpBytes a.key b.key with _ | _ | _
  · exact Or.inl (Or.inl rfl)
  · have hk : a.key = b.key := cmpBytes_eq_iff.1 hc
    rcases Nat.le_total (tieUid a) (tieUid b) with h | h
    · exact Or.inl (Or.inr ⟨hk, h⟩)
    · exact Or.inr (Or.inr ⟨hk.symm, h⟩)
  · refine Or.inr (Or.inl ?_)
    rw [hswap, hc]; rfl

theorem mapLE_trans : ∀ a b c : MapEntry, mapLE a b → mapLE b c → mapLE a c := by
  intro a b c hab hbc
  rw [mapLE_iff] at hab hbc ⊢
  rcases hab with h1 | ⟨hk1, ht1⟩
  · rcases hbc with h2 | ⟨hk2, _⟩
    · exact Or.inl (cmpBytes_lt_trans h1 h2)
    · exact Or.inl (hk2 ▸ h1)
  · rcases hbc with h2 | ⟨hk2, ht2⟩
    · exact Or.inl (hk1 ▸ h2)
    · exact Or.inr ⟨hk1.trans hk2, Nat.le_trans ht1 ht2⟩

theorem uvarintAux_congr : ∀ f1 f2 n, n ≤ f1 → n ≤ f2 →
    uvarintAux f1 n = uvarintAux f2 n := by
  intro f1
  induction f1 with
  | zero =>
    intro f2 n h1 _
    interval_cases n
    cases f2 <;> simp [uvarintAux]
  | succ f1' ih =>
    intro f2 n h1 h2
    cases f2 with
    | zero =>
      interval_cases n
      simp [uvarintAux]
    | succ f2' =>
      simp only [uvarintAux]
      by_cases hn : n < 128
      · simp [hn]
      · simp only [hn, if_false]
        have hdiv : n / 128 < n := Nat.div_lt_self (by omega) (by omega)
        rw [ih f2' (n / 128) (by omega) (by omega)]

theorem uvarint_unfold (n : Nat) :
    uvarint n = if n < 128 then [n] else (n % 128 + 128) :: uvarint (n / 128) := by
  unfold uvarint
  cases hn : n with
  | zero => simp [uvarintAux]
  | succ m =>
    simp only [uvarintAux]
    by_cases hlt : m + 1 < 128
    · simp [hlt]
    · simp only [hlt, if_false]
      have hdiv : (m + 1) / 128 < m + 1 := Nat.div_lt_self (by omega) (by omega)
      rw [uvarintAux_congr m ((m + 1) / 128) ((m + 1) / 128) (by omega) (by omega)]

theorem parseUvarint_round (n : Nat) :
    ∀ rest, parseUvarint (uvarint n ++ rest) = some (n, rest) := by
  induction n using Nat.strong_induction_on with
  | _ n ih =>
    intro rest
    rw [uvarint_unfold]
    by_cases hn : n < 128
    · simp [hn, parseUvarint]
    · have hdiv : n / 128 < n := Nat.div_lt_self (by omega) (by omega)
      simp only [hn, if_false, List.cons_append, parseUvarint]
      have hb : ¬ n % 128 + 128 < 128 := by omega
      simp only [hb, if_false, ih (n / 128) hdiv rest]
      have : n / 128 * 128 + (n % 128 + 128 - 128) = n := by
        have := Nat.div_add_mod n 128
        omega
      rw [this]

theorem takeN_round (xs rest : List Nat) :
    takeN xs.length (xs ++ rest) = some (xs, rest) := by
  unfold takeN
  have hlen : (xs ++ rest).length = xs.length + rest.length := by simp
  rw [if_neg (by omega)]
  rw [List.take_left, List.drop_left]

theorem parseBytes_round (bs rest : List Nat) :
    parseBytes (encBytes bs ++ rest) = some (bs, rest) := by
  simp only [parseBytes, encBytes, List.append_assoc, parseUvarint_round, takeN_round]

theorem ptOfCode_round (t : PostingType) : ptOfCode (ptCode t) = some t := by
  cases t <;> rfl

theorem parseFacet_round (f : Facet) (rest : List Nat) :
    parseFacet (encFacet f ++ rest) = some (f, rest) := by
  simp only [parseFacet, encFacet, List.append_assoc, parseBytes_round]

theorem parseCount_round {α : Type} (p : List Nat → Option (α × List Nat))
    (e : α → List Nat) (he : ∀ x rest, p (e x ++ rest) = some (x, rest)) :
    ∀ (xs : List α) (rest : List Nat),
      parseCount p xs.length ((xs.map e).flatten ++ rest) = some (xs, rest) := by
  intro xs
  induction xs with
  | nil => intro rest; simp [parseCount]
  | cons x xs ih =>
    intro rest
    simp only [List.map, List.flatten, List.length, List.append_assoc, parseCount, he, ih]

theorem parsePosting_round (p : Posting) (rest : List Nat) :
    parsePosting (encPosting p ++ rest) = some (p, rest) := by
  simp only [parsePosting, encPosting, List.append_assoc, parseUvarint_round,
    ptOfCode_round, parseBytes_round,
    parseCount_round parseFacet encFacet parseFacet_round]

theorem parseEntryBody_round (me : MapEntry) (rest : List Nat) :
    parseEntryBody (encEntryBody me ++ rest) = some (me, rest) := by
  obtain ⟨k, u, po⟩ := me
  cases po with
  | none =>
    simp only [parseEntryBody, encEntryBody, List.append_assoc,
      parseBytes_round, parseUvarint_round, List.cons_append, List.nil_append]
  | some p =>
    simp only [parseEntryBody, encEntryBody, List.append_assoc,
      parseBytes_round, parseUvarint_round, List.cons_append, parsePosting_round]

theorem decodeEntry_round (me : MapEntry) (rest : List Nat) :
    decodeEntry (encEntry me ++ rest) = some (me, rest) := by
  have hbody : parseEntryBody (encEntryBody me) = some (me, []) := by
    have := parseEntryBody_round me []
    simpa using this
  simp only [decodeEntry, encEntry, parseBytes_round, hbody, if_true]

theorem decodeEntriesAux_succ_cons (fuel b : Nat) (bs : List Nat) :
    decodeEntriesAux (fuel + 1) (b :: bs) =
      match decodeEntry (b :: bs) with
      | none => none
      | some (me, rest) =>
        match decodeEntriesAux fuel rest with
        | none => none
        | some es => some (me :: es) := rfl

theorem encEntry_ne_nil (me : MapEntry) : encEntry me ≠ [] := by
  unfold encEntry encBytes
  rw [uvarint_unfold]
  by_cases h : (encEntryBody me).length < 128 <;> simp [h]

theorem decodeEntriesAux_round (es : List MapEntry) :
    ∀ fuel, es.length ≤ fuel → decodeEntriesAux fuel (encBuffer es) = some es := by
  induction es with
  | nil => intro fuel _; cases fuel <;> simp [encBuffer, decodeEntriesAux]
  | cons e es ih =>
    intro fuel hf
    cases fuel with
    | zero => simp at hf
    | succ fuel' =>
      have hbuf : encBuffer (e :: es) = encEntry e ++ encBuffer es := by
        simp [encBuffer]
      rw [hbuf]
      have hih := ih fuel' (by simpa using Nat.le_of_succ_le_succ hf)
      rcases hne : encEntry e ++ encBuffer es with _ | ⟨b, bs⟩
      · exact absurd hne (by simp [encEntry_ne_nil e])
      · rw [decodeEntriesAux_succ_cons, ← hne]
        simp only [decodeEntry_round, hih]

theorem length_le_encBuffer (es : List MapEntry) :
    es.length ≤ (encBuffer es).length := by
  induction es with
  | nil => simp [encBuffer]
  | cons e es ih =>
    have hbuf : encBuffer (e :: es) = encEntry e ++ encBuffer es := by
      simp [encBuffer]
    have hpos : 0 < (encEntry e).length :=
      List.length_pos.2 (encEntry_ne_nil e)
    simp only [hbuf, List.length_append, List.length_cons]
    omega

theorem decodeBuffer_round (es : List MapEntry) :
    decodeBuffer (encBuffer es) = some es :=
  decodeEntriesAux_round es _ (length_le_encBuffer es)

/-! ## Claims -/

/-- C4: Every MapEntry emitted by addMapEntry populates exactly one
payload variant, never both: the full Posting is attached when the
posting's type is not REF or its facet list is non-empty, and otherwise
only the bare UID is set. -/
theorem C4_map_entry_payload_exclusive :
    ∀ (key : List Nat) (p : Posting),
      ((addMapEntry key p).posting = some p ∧ (addMapEntry key p).uid = 0
        ∨ (addMapEntry key p).posting = none ∧ (addMapEntry key p).uid = p.uid)
      ∧ ((addMapEntry key p).posting.isSome = true
          ↔ (p.postingType ≠ .ref ∨ p.facets ≠ []))
      ∧ ((addMapEntry key p).posting.isSome = true → (addMapEntry key p).uid = 0) := by
  intro key p
  unfold addMapEntry
  by_cases h : p.postingType ≠ .ref ∨ p.facets ≠ [] <;> simp [h]

/-- C6: Decoding a well-formed entry buffer into MapEntry records, sorting
them, and re-encoding them in sorted order consumes exactly the region's
original length — total byte size is unchanged by re-ordering — so the
post-encode assertion that no buffer bytes remain never fails for buffers
produced by addMapEntry. -/
theorem C6_flush_preserves_buffer_size :
    ∀ es : List MapEntry,
      decodeBuffer (encBuffer es) = some es
      ∧ writeMapEntriesToFile (encBuffer es) = some (encBuffer (sortEntries es))
      ∧ (encBuffer (sortEntries es)).length = (encBuffer es).length := by
  intro es
  refine ⟨decodeBuffer_round es, ?_, ?_⟩
  · unfold writeMapEntriesToFile
    rw [decodeBuffer_round]
  · have hperm : List.Perm (sortEntries es) es := List.perm_insertionSort mapLE es
    have hmap : List.Perm ((sortEntries es).map (fun e => (encEntry e).length))
        (es.map (fun e => (encEntry e).length)) := hperm.map _
    simp only [encBuffer, List.length_flatten, List.map_map, Function.comp_def]
    exact hmap.sum_eq

theorem mapLE_adjacentOrdered {e1 e2 : MapEntry} (h : mapLE e1 e2) :
    adjacentOrdered e1 e2 := by
  rcases mapLE_iff.1 h with hlt | ⟨hk, hle⟩
  · constructor
    · rw [hlt]; simp
    · intro hk
      rw [hk, cmpBytes_self] at hlt
      exact absurd hlt (by simp)
  · constructor
    · rw [hk, cmpBytes_self]; simp
    · intro _; exact hle

/-- C1: Within one flushed map file, entries appear in ascending composite
key order: for any two adjacent decoded entries e1, e2, key(e1) <= key(e2)
by lexicographic byte comparison, and when the keys are equal, the
tie-break ID of e1 (the posting's target UID when a posting payload is
present, otherwise the entry's bare UID) is <= that of e2. -/
theorem C1_flushed_file_sorted (buf out : List Nat) (es : List MapEntry)
    (hw : writeMapEntriesToFile buf = some out)
    (hd : decodeBuffer out = some es) :
    List.Chain' adjacentOrdered es := by
  unfold writeMapEntriesToFile at hw
  rcases hbuf : decodeBuffer buf with _ | es0
  · rw [hbuf] at hw; cases hw
  · rw [hbuf] at hw
    have hout : out = encBuffer (sortEntries es0) := by
      cases hw; rfl
    rw [hout, decodeBuffer_round] at hd
    have hes : es = sortEntries es0 := by cases hd; rfl
    subst hes
    haveI : IsTotal MapEntry mapLE := ⟨mapLE_total⟩
    haveI : IsTrans MapEntry mapLE := ⟨mapLE_trans⟩
    have hsorted : List.Sorted mapLE (sortEntries es0) :=
      List.sorted_insertionSort mapLE es0
    exact (hsorted.imp fun h => mapLE_adjacentOrdered h).chain'

/-- Witness for C1: a concrete two-entry buffer flushes to a sorted file. -/
theorem C1_flushed_file_sorted_witness : List.Chain' adjacentOrdered [entB, entA] :=
  C1_flushed_file_sorted (encBuffer [entA, entB]) (encBuffer [entB, entA])
    [entB, entA] (by decide) (by decide)

/-- Index entries of a token loop all point at the entity of the edge the
loop was given, as bare-UID reference entries. -/
theorem indexLoop_entries_ref (env : Env) (nq : NQuad) (de : DirectedEdge)
    (sch : Schema) :
    ∀ (names : List String) (es : List MapEntry),
      indexLoop env nq de sch names = .ok es →
      ∀ e ∈ es, e.uid = de.entity ∧ e.posting = none := by
  intro names
  induction names with
  | nil =>
    intro es h e he
    simp only [indexLoop] at h
    cases h
    simp at he
  | cons name rest ih =>
    intro es h e he
    simp only [indexLoop] at h
    rcases htok : env.tokenizers name with _ | tokFn <;> rw [htok] at h
    · cases h
    · rcases hcv : env.convert de.value de.valueType sch.valueType with _ | sv <;>
        rw [hcv] at h
      · cases h
      · rcases hrec : indexLoop env nq de sch rest with e1 | es1 <;> rw [hrec] at h
        · cases h
        · cases h
          rcases List.mem_append.1 he with hm | hm
          · rcases List.mem_map.1 hm with ⟨t, _, ht⟩
            subst ht
            unfold addMapEntry
            simp
          · exact ih es1 hrec e hm

theorem createPostings_eq (env : Env) (nq : NQuad) (de : DirectedEdge) :
    createPostings env nq de =
      if validateTypeOk env de nq.objectValue.isNone = false then
        .error .typeMismatch
      else if (env.schema nq.predicate).directive = .reverse then
        (if nq.objectValue.isSome = true then .error .reverseOnValue
         else .ok (fwdPosting env nq de, some (newPosting (swapEdge de)), de))
      else .ok (fwdPosting env nq de, none, de) := by
  obtain ⟨ent, vid, attr, val, vt, lg, fc⟩ := de
  by_cases hval : validateTypeOk env ⟨ent, vid, attr, val, vt, lg, fc⟩
      nq.objectValue.isNone = false
  · simp [createPostings, hval]
  · by_cases hdir : (env.schema nq.predicate).directive = .reverse
    · by_cases hobj : nq.objectValue.isSome = true
      · simp [createPostings, hval, hdir, hobj]
      · simp [createPostings, fwdPosting, swapEdge, validateTypeOk, hval, hdir, hobj]
    · simp [createPostings, fwdPosting, hval, hdir]

/-- C10: On every non-aborting return of createPostings, the DirectedEdge
passed in is left exactly as it was received: the in-place swap of its
source (Entity) and destination (ValueId) performed to build the reverse
posting is always swapped back before return, so the subsequent
index-entry generation that reuses the same edge sees the original subject
as the entity. -/
theorem C10_edge_restored :
    (∀ (env : Env) (nq : NQuad) (de : DirectedEdge) (p : Posting)
        (r : Option Posting) (de2 : DirectedEdge),
        createPostings env nq de = .ok (p, r, de2) → de2 = de)
    ∧ (∀ (env : Env) (nq : NQuad) (de : DirectedEdge) (es : List MapEntry),
        addIndexMapEntries env nq de = .ok es →
        ∀ e ∈ es, e.uid = de.entity ∧ e.posting = none) := by
  constructor
  · intro env nq de p r de2 h
    rw [createPostings_eq] at h
    split at h
    · cases h
    · split at h
      · split at h
        · cases h
        · cases h; rfl
      · cases h; rfl
  · intro env nq de es h e he
    unfold addIndexMapEntries at h
    split at h
    · cases h; simp at he
    · exact indexLoop_entries_ref env nq de _ _ es h e he

/-- Witness for C10: the concrete value statement under `env0` returns the
edge unchanged, and its (empty) index entries trivially reference it. -/
theorem C10_edge_restored_witness :
    deV = deV ∧ (∀ e ∈ ([] : List MapEntry), e.uid = deV.entity ∧ e.posting = none) :=
  ⟨C10_edge_restored.1 env0 nqV deV pV none deV (by rfl),
   C10_edge_restored.2 env0 nqV deV [] (by rfl)⟩

/-- Disambiguator UID of the forward posting of a value edge, extracted
from a successful `createPostings` run. -/
theorem createPostings_ok_uid {env : Env} {nq : NQuad} {de : DirectedEdge}
    {p : Posting} {r : Option Posting} {d2 : DirectedEdge}
    (hobj : nq.objectValue.isSome = true)
    (h : createPostings env nq de = .ok (p, r, d2)) :
    p.uid = if de.lang ≠ [] then fingerprint64 de.lang
            else if (env.schema nq.predicate).list then fingerprint64 de.value
            else 2 ^ 64 - 1 := by
  rw [createPostings_eq] at h
  by_cases hval : validateTypeOk env de nq.objectValue.isNone = false
  · rw [if_pos hval] at h; cases h
  · rw [if_neg hval] at h
    by_cases hdir : (env.schema nq.predicate).directive = .reverse
    · rw [if_pos hdir, if_pos hobj] at h; cases h
    · rw [if_neg hdir] at h
      cases h
      simp [fwdPosting, hobj]

/-- C2 (amended): For every value-typed edge, the forward posting's
disambiguator UID is chosen by priority order: the 64-bit hash of the
language tag if one is present; otherwise the 64-bit hash of the literal
value bytes if the predicate's schema declares it list-valued; otherwise
the fixed sentinel value 2^64-1.  Two no-language-tag values for the same
(subject, predicate) under a non-list schema get identical sentinel
disambiguators, and two distinct values under a list schema get the two
value hashes as disambiguators, which are distinct whenever those 64-bit
hashes differ. -/
theorem C2_disambiguator_priority :
    (∀ (env : Env) (nq : NQuad) (de : DirectedEdge) (p : Posting)
        (r : Option Posting) (d2 : DirectedEdge),
        nq.objectValue.isSome = true →
        createPostings env nq de = .ok (p, r, d2) →
        p.uid = (if de.lang ≠ [] then fingerprint64 de.lang
                 else if (env.schema nq.predicate).list then fingerprint64 de.value
                 else 2 ^ 64 - 1))
    ∧ (∀ (env : Env) (nq1 nq2 : NQuad) (de1 de2 : DirectedEdge) (p1 p2 : Posting)
        (r1 r2 : Option Posting) (d1 d2 : DirectedEdge),
        nq1.objectValue.isSome = true → nq2.objectValue.isSome = true →
        de1.lang = [] → de2.lang = [] →
        nq1.predicate = nq2.predicate →
        (env.schema nq1.predicate).list = false →
        createPostings env nq1 de1 = .ok (p1, r1, d1) →
        createPostings env nq2 de2 = .ok (p2, r2, d2) →
        p1.uid = p2.uid)
    ∧ (∀ (env : Env) (nq1 nq2 : NQuad) (de1 de2 : DirectedEdge) (p1 p2 : Posting)
        (r1 r2 : Option Posting) (d1 d2 : DirectedEdge),
        nq1.objectValue.isSome = true → nq2.objectValue.isSome = true →
        de1.lang = [] → de2.lang = [] →
        nq1.predicate = nq2.predicate →
        (env.schema nq1.predicate).list = true →
        fingerprint64 de1.value ≠ fingerprint64 de2.value →
        createPostings env nq1 de1 = .ok (p1, r1, d1) →
        createPostings env nq2 de2 = .ok (p2, r2, d2) →
        p1.uid ≠ p2.uid) := by
  refine ⟨fun env nq de p r d2 hobj h => createPostings_ok_uid hobj h, ?_, ?_⟩
  · intro env nq1 nq2 de1 de2 p1 p2 r1 r2 d1 d2 ho1 ho2 hl1 hl2 hpred hlist h1 h2
    have hu1 := createPostings_ok_uid ho1 h1
    have hu2 := createPostings_ok_uid ho2 h2
    rw [← hpred] at hu2
    rw [hl1, hlist] at hu1
    rw [hl2, hlist] at hu2
    simp at hu1 hu2
    rw [hu1, hu2]
  · intro env nq1 nq2 de1 de2 p1 p2 r1 r2 d1 d2 ho1 ho2 hl1 hl2 hpred hlist hnefp h1 h2
    have hu1 := createPostings_ok_uid ho1 h1
    have hu2 := createPostings_ok_uid ho2 h2
    rw [← hpred] at hu2
    rw [hl1, hlist] at hu1
    rw [hl2, hlist] at hu2
    simp at hu1 hu2
    rw [hu1, hu2]
    exact hnefp

theorem disambOf_eq (v : List Nat) : disambOf v = fingerprint64 v := rfl

/-- Counterexample for C2 as stated: under the list schema it is not true
that any two distinct values receive distinct disambiguator UIDs, because
the disambiguator is a 64-bit hash of the value and there are more values
than 64-bit hash results (pigeonhole). -/
theorem C2_counterexample :
    ¬ (∀ v1 v2 : List Nat, v1 ≠ v2 → disambOf v1 ≠ disambOf v2) := by
  intro hclaim
  obtain ⟨i, j, hij, hfij⟩ :=
    Fintype.exists_ne_map_eq_of_card_lt
      (fun i : Fin (2 ^ 64 + 1) =>
        (⟨fingerprint64 (List.replicate i.1 1), fingerprint64_lt _⟩ : Fin (2 ^ 64)))
      (by simp only [Fintype.card_fin]; exact Nat.lt_succ_self _)
  have hvne : List.replicate i.1 1 ≠ List.replicate j.1 1 := by
    intro h
    apply hij
    have hlen := congrArg List.length h
    simp only [List.length_replicate] at hlen
    exact Fin.ext hlen
  have hfe : fingerprint64 (List.replicate i.1 1)
      = fingerprint64 (List.replicate j.1 1) := by
    simpa [Fin.ext_iff] using hfij
  exact hclaim _ _ hvne (by rw [disambOf_eq, disambOf_eq]; exact hfe)

/-- Witness for C2: all three clauses instantiated at concrete inputs. -/
theorem C2_disambiguator_priority_witness :
    (pV.uid = if deV.lang ≠ [] then fingerprint64 deV.lang
              else if (env0.schema nqV.predicate).list then fingerprint64 deV.value
              else 2 ^ 64 - 1)
    ∧ pV.uid = pW.uid
    ∧ (fwdPosting envL (nqOf [0]) (deOf [0])).uid ≠ (fwdPosting envL (nqOf [1]) (deOf [1])).uid :=
  ⟨C2_disambiguator_priority.1 env0 nqV deV pV none deV rfl (by rfl),
   C2_disambiguator_priority.2.1 env0 nqV nqW deV deW pV pW none none deV deW
     rfl rfl rfl rfl rfl rfl (by rfl) (by rfl),
   C2_disambiguator_priority.2.2 envL (nqOf [0]) (nqOf [1]) (deOf [0]) (deOf [1])
     (fwdPosting envL (nqOf [0]) (deOf [0])) (fwdPosting envL (nqOf [1]) (deOf [1]))
     none none (deOf [0]) (deOf [1])
     rfl rfl rfl rfl rfl rfl (by decide) (by rfl) (by rfl)⟩

/-- Characterization of the reverse component of a successful
`createPostings` run: a reverse posting is present exactly under the
reverse schema directive, and success under the reverse directive forces a
node-typed object. -/
theorem createPostings_ok_rev {env : Env} {nq : NQuad} {de : DirectedEdge}
    {p : Posting} {r : Option Posting} {d2 : DirectedEdge}
    (h : createPostings env nq de = .ok (p, r, d2)) :
    (r.isSome = true ↔ (env.schema nq.predicate).directive = .reverse)
    ∧ ((env.schema nq.predicate).directive = .reverse →
        nq.objectValue.isSome = false) := by
  rw [createPostings_eq] at h
  by_cases hval : validateTypeOk env de nq.objectValue.isNone = false
  · rw [if_pos hval] at h; cases h
  · rw [if_neg hval] at h
    by_cases hdir : (env.schema nq.predicate).directive = .reverse
    · rw [if_pos hdir] at h
      by_cases hobj : nq.objectValue.isSome = true
      · rw [if_pos hobj] at h; cases h
      · rw [if_neg hobj] at h
        cases h
        exact ⟨by simp [hdir], fun _ => by simpa using hobj⟩
    · rw [if_neg hdir] at h
      cases h
      simp [hdir]

/-- C3: createPostings returns a reverse posting if and only if the
predicate's schema declares the reverse-edge directive; when a reverse
posting is built, the reverse map entry is keyed by (predicate, object
UID) with source and destination swapped relative to the forward edge; and
it is a fatal process abort to have the reverse directive declared on a
statement whose object is a literal value rather than a node reference. -/
theorem C3_reverse_posting :
    (∀ (env : Env) (nq : NQuad) (de : DirectedEdge) (p : Posting)
        (r : Option Posting) (d2 : DirectedEdge),
        createPostings env nq de = .ok (p, r, d2) →
        (r.isSome = true ↔ (env.schema nq.predicate).directive = .reverse))
    ∧ (∀ (env : Env) (nq : NQuad) (de : DirectedEdge),
        (env.schema nq.predicate).directive = .reverse →
        nq.objectValue.isSome = true →
        ∃ e, createPostings env nq de = .error e)
    ∧ (∀ (env : Env) (nq : NQuad) (sid oid : Nat) (es : List MapEntry),
        nq.objectValue = none →
        (env.schema nq.predicate).directive = .reverse →
        emitEntries env nq sid oid (createUidEdge nq sid oid) = .ok es →
        ∃ rest fwd rp,
          es = addMapEntry (dataKey nq.predicate sid) fwd
            :: addMapEntry (reverseKey nq.predicate oid) rp :: rest
          ∧ fwd.uid = oid ∧ rp.uid = sid) := by
  refine ⟨fun env nq de p r d2 h => (createPostings_ok_rev h).1, ?_, ?_⟩
  · intro env nq de hdir hobj
    rw [createPostings_eq]
    by_cases hval : validateTypeOk env de nq.objectValue.isNone = false
    · exact ⟨.typeMismatch, by rw [if_pos hval]⟩
    · exact ⟨.reverseOnValue, by rw [if_neg hval, if_pos hdir, if_pos hobj]⟩
  · intro env nq sid oid es hobj hdir h
    unfold emitEntries at h
    rw [createPostings_eq] at h
    have hval : validateTypeOk env (createUidEdge nq sid oid) nq.objectValue.isNone
        = true := by
      unfold validateTypeOk
      rw [hobj]
      rfl
    rw [hval] at h
    rw [if_neg (by simp), if_pos hdir, if_neg (by simp [hobj])] at h
    have hidx : addIndexMapEntries env nq (createUidEdge nq sid oid) = .ok [] := by
      unfold addIndexMapEntries
      rw [hobj]
      rfl
    dsimp only at h
    rw [hidx] at h
    dsimp only at h
    cases h
    refine ⟨(if env.expandEdges = true then
        [addMapEntry (dataKey "_predicate_" sid) (createPredicatePosting nq.predicate)]
      else []), fwdPosting env nq (createUidEdge nq sid oid),
      newPosting (swapEdge (createUidEdge nq sid oid)), by simp, ?_, ?_⟩
    · simp [fwdPosting, hobj, newPosting, createUidEdge]
    · simp [newPosting, swapEdge, createUidEdge]

/-- Witness for C3: under `envR`, the concrete node statement gets a
reverse posting with the swapped key layout, and the concrete value
statement is a fatal abort. -/
theorem C3_reverse_posting_witness :
    ((some (newPosting (swapEdge (createUidEdge nqU 3 4)))).isSome = true
      ↔ (envR.schema nqU.predicate).directive = .reverse)
    ∧ (∃ e, createPostings envR nqV deV = .error e)
    ∧ (∃ rest fwd rp,
        [addMapEntry (dataKey nqU.predicate 3) (fwdPosting envR nqU (createUidEdge nqU 3 4)),
         addMapEntry (reverseKey nqU.predicate 4) (newPosting (swapEdge (createUidEdge nqU 3 4)))]
          = addMapEntry (dataKey nqU.predicate 3) fwd
            :: addMapEntry (reverseKey nqU.predicate 4) rp :: rest
          ∧ fwd.uid = 4 ∧ rp.uid = 3) :=
  ⟨C3_reverse_posting.1 envR nqU (createUidEdge nqU 3 4)
      (fwdPosting envR nqU (createUidEdge nqU 3 4))
      (some (newPosting (swapEdge (createUidEdge nqU 3 4))))
      (createUidEdge nqU 3 4) (by rfl),
   C3_reverse_posting.2.1 envR nqV deV rfl rfl,
   C3_reverse_posting.2.2 envR nqU 3 4 _ rfl rfl (by rfl)⟩

/-- Resolution emits nothing when identifier retention is off. -/
theorem lookupUidF_noStore {env : Env} (hsx : env.storeXids = false)
    (fuel : Nat) (st : XidMap) (x : String) :
    ∃ uid st1, lookupUidF fuel env st x = .ok (uid, st1, [], []) := by
  unfold lookupUidF lookupUidGo
  rcases assignUid st x with ⟨uid, isNew, st1⟩
  refine ⟨uid, st1, ?_⟩
  dsimp only
  rw [if_pos (Or.inr hsx)]

/-- Edge returned by a successful `createPostings` run is the input edge. -/
theorem createPostings_ok_edge {env : Env} {nq : NQuad} {de : DirectedEdge}
    {p : Posting} {r : Option Posting} {d2 : DirectedEdge}
    (h : createPostings env nq de = .ok (p, r, d2)) : d2 = de := by
  rw [createPostings_eq] at h
  split at h
  · cases h
  · split at h
    · split at h
      · cases h
      · cases h; rfl
    · cases h; rfl

/-- Length of the entry list of a successful tokenizer loop. -/
theorem indexLoop_ok_length (env : Env) (nq : NQuad) (de : DirectedEdge)
    (sch : Schema) :
    ∀ (names : List String) (es : List MapEntry),
      indexLoop env nq de sch names = .ok es →
      es.length = (names.map (fun name =>
        match env.tokenizers name,
          env.convert de.value de.valueType sch.valueType with
        | some tokFn, some sv => (tokFn sv).length
        | _, _ => 0)).sum := by
  intro names
  induction names with
  | nil =>
    intro es h
    simp only [indexLoop] at h
    cases h
    rfl
  | cons name rest ih =>
    intro es h
    simp only [indexLoop] at h
    rcases htok : env.tokenizers name with _ | tokFn <;> rw [htok] at h
    · cases h
    · rcases hcv : env.convert de.value de.valueType sch.valueType with _ | sv <;>
        rw [hcv] at h
      · cases h
      · rcases hrec : indexLoop env nq de sch rest with e1 | es1 <;> rw [hrec] at h
        · cases h
        · cases h
          simp [htok, hcv, ih es1 hrec]

/-- Length of the entry list of one successful emission step. -/
theorem emitEntries_ok_length {env : Env} {nq : NQuad} {sid oid : Nat}
    {de : DirectedEdge} {es : List MapEntry}
    (hde : ∀ v, nq.objectValue = some v → de.value = v.bytes ∧ de.valueType = v.typ)
    (h : emitEntries env nq sid oid de = .ok es) :
    es.length = expectedCount env nq := by
  unfold emitEntries at h
  rcases hcp : createPostings env nq de with e | ⟨fwd, rev, de2⟩ <;> rw [hcp] at h
  · cases h
  · have hde2 : de2 = de := createPostings_ok_edge hcp
    rw [hde2] at h
    dsimp only at h
    rcases hidx : addIndexMapEntries env nq de with e | idx <;> rw [hidx] at h <;>
      dsimp only at h
    · cases h
    · cases h
      have hrev := createPostings_ok_rev hcp
      have hrevlen :
          (match rev with
           | none => ([] : List MapEntry)
           | some rp => [addMapEntry (reverseKey nq.predicate oid) rp]).length
          = (if (env.schema nq.predicate).directive = .reverse ∧ nq.objectValue = none
             then 1 else 0) := by
        rcases rev with _ | rp
        · simp only [List.length_nil]
          rw [if_neg]
          intro ⟨hdir, _⟩
          rw [← hrev.1] at hdir
          cases hdir
        · simp only [List.length_cons, List.length_nil]
          rw [if_pos]
          refine ⟨hrev.1.1 rfl, ?_⟩
          have := hrev.2 (hrev.1.1 rfl)
          exact Option.not_isSome_iff_eq_none.1 (by rw [this]; simp)
      have hidxlen : idx.length = tokenCount env nq := by
        unfold addIndexMapEntries at hidx
        rcases hobj : nq.objectValue with _ | v <;> rw [hobj] at hidx
        · simp only [Option.isNone_none, if_true] at hidx
          cases hidx
          simp [tokenCount, hobj]
        · simp only [Option.isNone_some, Bool.false_eq_true, if_false] at hidx
          have hlen := indexLoop_ok_length env nq de (env.schema nq.predicate)
            (env.schema nq.predicate).tokenizer idx hidx
          rw [hlen]
          obtain ⟨hv, ht⟩ := hde v hobj
          simp [tokenCount, hobj, hv, ht]
      simp only [List.length_cons, List.length_append, hrevlen, hidxlen,
        expectedCount]
      by_cases hex : env.expandEdges <;> simp [hex] <;> omega

/-- Entry count of one full statement when identifier retention is off. -/
theorem processNQuadF_noStore_length {env : Env} (hsx : env.storeXids = false) :
    ∀ (fuel : Nat) (st : XidMap) (nq : NQuad) (st1 : XidMap)
      (out : List MapEntry) (log : List NQuad),
      processNQuadF fuel env st nq = .ok (st1, out, log) →
      out.length = expectedCount env nq := by
  intro fuel st nq st1 out log h
  cases fuel with
  | zero =>
    simp only [processNQuadF] at h
    cases h
  | succ fuel' =>
    rw [processNQuadF_succ] at h
    obtain ⟨uidS, stS, hlook⟩ := lookupUidF_noStore hsx fuel' st nq.subject
    rw [hlook] at h
    dsimp only at h
    rcases hobj : nq.objectValue with _ | v <;> rw [hobj] at h <;> dsimp only at h
    · obtain ⟨uidO, stO, hlookO⟩ := lookupUidF_noStore hsx fuel' stS nq.objectId
      rw [hlookO] at h
      dsimp only at h
      rcases hem : emitEntries env nq uidS uidO (createUidEdge nq uidS uidO)
        with e | es2 <;> rw [hem] at h <;> dsimp only at h
      · cases h
      · cases h
        have := emitEntries_ok_length (fun v hv => by rw [hobj] at hv; cases hv) hem
        simpa using this
    · rcases hem : emitEntries env nq uidS 0 (createValueEdge nq v uidS)
        with e | es2 <;> rw [hem] at h <;> dsimp only at h
      · cases h
      · cases h
        have := emitEntries_ok_length (fun w hw => by
          rw [hobj] at hw
          cases hw
          exact ⟨rfl, rfl⟩) hem
        simpa using this

/-- C5 (amended): For a batch of successfully parsed statements with
distinct subjects, processed with identifier retention (StoreXids)
disabled, the total number of emitted map entries equals the sum, over
statements, of: 1 for the forward entry, plus 1 if the predicate has a
reverse directive and the object is a node (else 0), plus the number of
tokens produced if the edge is value-typed and tokenizers are configured,
plus 1 if predicate-list materialization (ExpandEdges) is enabled. -/
theorem C5_entry_count_law :
    ∀ (fuel : Nat) (env : Env) (st : XidMap) (nqs : List NQuad)
      (st2 : XidMap) (out : List MapEntry),
      env.storeXids = false →
      List.Pairwise (fun a b => a.subject ≠ b.subject) nqs →
      runBatch fuel env st nqs = .ok (st2, out) →
      out.length = (nqs.map (expectedCount env)).sum := by
  intro fuel env st nqs
  induction nqs generalizing st with
  | nil =>
    intro st2 out hsx _ h
    cases h
    rfl
  | cons nq rest ih =>
    intro st2 out hsx hdist h
    simp only [runBatch] at h
    rcases hp : processNQuadF fuel env st nq with e | r
    · rw [hp] at h
      dsimp only at h
      cases h
    · obtain ⟨st1, out1, log1⟩ := r
      rw [hp] at h
      dsimp only at h
      rcases hr : runBatch fuel env st1 rest with e | r2
      · rw [hr] at h
        dsimp only at h
        cases h
      · obtain ⟨stR, outR⟩ := r2
        have h1 := processNQuadF_noStore_length hsx fuel st nq st1 out1 log1 hp
        have h2 := ih st1 stR outR hsx (List.Pairwise.of_cons hdist) hr
        rw [hr] at h
        dsimp only at h
        cases h
        simp [h1, h2]

/-- Counterexample for C5 as stated: with identifier retention enabled,
one value statement with a fresh subject emits 2 entries (the forward
entry plus the synthesized external-identifier entry), while the count law
predicts 1 — even though subjects are distinct and the batch succeeds. -/
theorem C5_counterexample :
    (match runBatch 2 envX xm0 [nqV] with
     | .ok (_, out) => some out.length
     | .error _ => none) = some 2
    ∧ ([nqV].map (expectedCount envX)).sum = 1
    ∧ List.Pairwise (fun a b : NQuad => a.subject ≠ b.subject) [nqV] :=
  ⟨rfl, rfl, by simp⟩

/-- Witness for C5: the count law holds on a concrete one-statement batch
with retention disabled. -/
theorem C5_entry_count_law_witness :
    [entV].length = ([nqV].map (expectedCount env0)).sum :=
  C5_entry_count_law 2 env0 xm0 [nqV] xm1 [entV] rfl (by simp) (by rfl)

/-- Re-resolving an identifier right after its first allocation finds it. -/
theorem assignUid_new_found {st : XidMap} {x : String} {uid : Nat} {st1 : XidMap}
    (h : assignUid st x = (uid, true, st1)) :
    assignUid st1 x = (uid, false, st1) := by
  unfold assignUid at h ⊢
  rcases hl : lookupAssigned st.assigned x with _ | v <;> rw [hl] at h
  · cases h
    simp [lookupAssigned]
  · cases h

/-- Resolution of an already-assigned identifier returns immediately. -/
theorem lookupUidGo_notNew {env : Env}
    {recur : XidMap → NQuad → Except Failure (XidMap × List MapEntry × List NQuad)}
    {st : XidMap} {x : String} {uid : Nat} {st1 : XidMap}
    (ha : assignUid st x = (uid, false, st1)) :
    lookupUidGo env recur st x = .ok (uid, st1, [], []) := by
  unfold lookupUidGo
  rw [ha]
  dsimp only
  rw [if_pos (Or.inl rfl)]

theorem xidNQuad_objectValue (x : String) :
    (xidNQuad x).objectValue = some { bytes := strBytes x, typ := 0 } := rfl

/-- Statement trace of processing the synthetic identifier statement when
its subject is already assigned: exactly the synthetic statement itself. -/
theorem processNQuadF_xid_log {fuel : Nat} {env : Env} {st1 : XidMap}
    {x : String} {uid : Nat} {stP : XidMap} {outP : List MapEntry}
    {logP : List NQuad}
    (ha : assignUid st1 x = (uid, false, st1))
    (hp : processNQuadF fuel env st1 (xidNQuad x) = .ok (stP, outP, logP)) :
    logP = [xidNQuad x] := by
  cases fuel with
  | zero =>
    simp only [processNQuadF] at hp
    cases hp
  | succ fuel' =>
    rw [processNQuadF_succ] at hp
    have hlook : lookupUidF fuel' env st1 (xidNQuad x).subject
        = .ok (uid, st1, [], []) := lookupUidGo_notNew ha
    rw [hlook] at hp
    dsimp only at hp
    rw [xidNQuad_objectValue] at hp
    dsimp only at hp
    rcases hem : emitEntries env (xidNQuad x) uid 0
        (createValueEdge (xidNQuad x) { bytes := strBytes x, typ := 0 } uid)
      with e | es <;> rw [hem] at hp <;> dsimp only at hp
    · cases hp
    · cases hp
      rfl

/-- C7: When retention of external identifiers (StoreXids) is enabled,
lookupUid feeds exactly one synthetic statement — predicate "xid", object
the identifier string itself — through the full statement-processing
pipeline before returning, if and only if the identifier was newly
allocated by this resolution and does not carry the blank-node prefix
"_:"; a blank-node identifier is resolved to a UID but never produces a
synthesized external-identifier statement. -/
theorem C7_xid_retention :
    ∀ (fuel : Nat) (env : Env) (st : XidMap) (xid : String)
      (uid : Nat) (st2 : XidMap) (out : List MapEntry) (log : List NQuad),
      env.storeXids = true →
      lookupUidF fuel env st xid = .ok (uid, st2, out, log) →
      uid = (assignUid st xid).1
      ∧ (log = [xidNQuad xid] ↔
          ((assignUid st xid).2.1 = true ∧ isBlankNode xid = false))
      ∧ (((assignUid st xid).2.1 = false ∨ isBlankNode xid = true) → log = []) := by
  intro fuel env st xid uid st2 out log hsx h
  unfold lookupUidF lookupUidGo at h
  rcases ha : assignUid st xid with ⟨uid0, isNew, st1⟩
  rw [ha] at h
  dsimp only at h
  by_cases hnew : isNew = false
  · subst hnew
    rw [if_pos (Or.inl rfl)] at h
    cases h
    refine ⟨rfl, ?_, fun _ => rfl⟩
    constructor
    · intro hlog
      cases hlog
    · rintro ⟨hn, _⟩
      exact Bool.noConfusion hn
  · have hnew' : isNew = true := by
      cases isNew
      · exact absurd rfl hnew
      · rfl
    subst hnew'
    rw [if_neg (by simp [hsx])] at h
    by_cases hblank : isBlankNode xid = true
    · rw [if_pos hblank] at h
      cases h
      refine ⟨rfl, ?_, fun _ => rfl⟩
      constructor
      · intro hlog
        cases hlog
      · rintro ⟨_, hb⟩
        rw [hblank] at hb
        cases hb
    · rw [if_neg hblank] at h
      rcases hp : processNQuadF fuel env st1 (xidNQuad xid) with e | r
      · rw [hp] at h
        dsimp only at h
        cases h
      · obtain ⟨stP, outP, logP⟩ := r
        have hfound := assignUid_new_found ha
        have hlog := processNQuadF_xid_log hfound hp
        rw [hp] at h
        dsimp only at h
        cases h
        refine ⟨rfl, ?_, ?_⟩
        · exact ⟨fun _ => ⟨rfl, by simpa using hblank⟩, fun _ => hlog⟩
        · rintro (hn | hb)
          · exact Bool.noConfusion hn
          · exact absurd hb hblank

/-- Witness for C7: resolving the fresh, non-blank identifier `"a"` under
retention feeds exactly the synthetic statement. -/
theorem C7_xid_retention_witness :
    (1 : Nat) = (assignUid xm0 "a").1
    ∧ ([xidNQuad "a"] = [xidNQuad "a"] ↔
        ((assignUid xm0 "a").2.1 = true ∧ isBlankNode "a" = false))
    ∧ (((assignUid xm0 "a").2.1 = false ∨ isBlankNode "a" = true) →
        [xidNQuad "a"] = []) :=
  C7_xid_retention 1 envX xm0 "a" 1 xmA [entXidA] [xidNQuad "a"] rfl (by rfl)

/-- The arithmetic aborts of `createPostings` are never fuel exhaustion. -/
theorem createPostings_ne_fuel (env : Env) (nq : NQuad) (de : DirectedEdge) :
    createPostings env nq de ≠ .error .fuel := by
  rw [createPostings_eq]
  split
  · simp
  · split
    · split <;> simp
    · simp

/-- The tokenizer loop never fails from fuel exhaustion. -/
theorem indexLoop_ne_fuel (env : Env) (nq : NQuad) (de : DirectedEdge)
    (sch : Schema) :
    ∀ names, indexLoop env nq de sch names ≠ .error .fuel := by
  intro names
  induction names with
  | nil => simp [indexLoop]
  | cons name rest ih =>
    simp only [indexLoop]
    rcases htok : env.tokenizers name with _ | tokFn
    · simp
    · rcases hcv : env.convert de.value de.valueType sch.valueType with _ | sv
      · simp
      · rcases hrec : indexLoop env nq de sch rest with e | es1
        · intro hcontra
          rw [Except.error.injEq] at hcontra
          rw [hcontra] at hrec
          exact ih hrec
        · simp

/-- Emission never fails from fuel exhaustion. -/
theorem emitEntries_ne_fuel (env : Env) (nq : NQuad) (sid oid : Nat)
    (de : DirectedEdge) :
    emitEntries env nq sid oid de ≠ .error .fuel := by
  unfold emitEntries
  rcases hcp : createPostings env nq de with e | r
  · intro hcontra
    rw [Except.error.injEq] at hcontra
    rw [hcontra] at hcp
    exact createPostings_ne_fuel env nq de hcp
  · obtain ⟨fwd, rev, de2⟩ := r
    dsimp only
    rcases hidx : addIndexMapEntries env nq de2 with e | idx
    · intro hcontra
      rw [Except.error.injEq] at hcontra
      rw [hcontra] at hidx
      unfold addIndexMapEntries at hidx
      split at hidx
      · cases hidx
      · exact indexLoop_ne_fuel env nq de2 _ _ hidx
    · simp

/-- A resolution with one unit of fuel never exhausts the fuel. -/
theorem lookupUidF_one_ne_fuel (env : Env) (st : XidMap) (x : String) :
    lookupUidF 1 env st x ≠ .error .fuel := by
  unfold lookupUidF lookupUidGo
  rcases ha : assignUid st x with ⟨uid, isNew, st1⟩
  dsimp only
  by_cases hnew : isNew = false
  · rw [if_pos (Or.inl hnew)]
    simp
  · by_cases hsx : env.storeXids = false
    · rw [if_pos (Or.inr hsx)]
      simp
    · rw [if_neg (by rintro (hc | hc); exacts [hnew hc, hsx hc])]
      by_cases hblank : isBlankNode x = true
      · rw [if_pos hblank]
        simp
      · rw [if_neg hblank]
        have hnew' : isNew = true := by
          cases isNew
          · exact absurd rfl hnew
          · rfl
        subst hnew'
        have hfound := assignUid_new_found ha
        rw [processNQuadF_succ]
        have hlook : lookupUidF 0 env st1 (xidNQuad x).subject
            = .ok (uid, st1, [], []) := lookupUidGo_notNew hfound
        rw [hlook]
        dsimp only
        rw [xidNQuad_objectValue]
        dsimp only
        rcases hem : emitEntries env (xidNQuad x) uid 0
            (createValueEdge (xidNQuad x) { bytes := strBytes x, typ := 0 } uid)
          with e | es
        · dsimp only
          intro hcontra
          rw [Except.error.injEq] at hcontra
          rw [hcontra] at hem
          exact emitEntries_ne_fuel env (xidNQuad x) uid 0 _ hem
        · simp

/-- C8: The identifier-retention recursion terminates in one level: under
the hypothesis that AssignUid is idempotent (a repeated resolution of the
same identifier returns isNew = false, proved here for the UID table),
processing the synthetic external-identifier statement synthesized by
lookupUid never synthesizes a further statement, so lookupUid and
processNQuad terminate (two units of fuel never run out) for every input
statement. -/
theorem C8_recursion_terminates :
    (∀ (st : XidMap) (x : String),
        (assignUid ((assignUid st x).2.2) x).2.1 = false)
    ∧ (∀ (env : Env) (st : XidMap) (x : String),
        isFuelErr (lookupUidF 1 env st x) = false)
    ∧ (∀ (env : Env) (st : XidMap) (nq : NQuad),
        isFuelErr (processNQuadF 2 env st nq) = false) := by
  have hbool : ∀ {α : Type} (e : Except Failure α),
      e ≠ .error .fuel → isFuelErr e = false := by
    intro α e he
    rcases e with f | a
    · rcases f <;> first | rfl | exact absurd rfl he
    · rfl
  refine ⟨?_, fun env st x => hbool _ (lookupUidF_one_ne_fuel env st x), ?_⟩
  · intro st x
    unfold assignUid
    rcases hl : lookupAssigned st.assigned x with _ | v <;>
      simp [hl, lookupAssigned]
  · intro env st nq
    refine hbool _ ?_
    rw [processNQuadF_succ]
    rcases hs : lookupUidF 1 env st nq.subject with e | r
    · dsimp only
      intro hcontra
      rw [Except.error.injEq] at hcontra
      rw [hcontra] at hs
      exact lookupUidF_one_ne_fuel env st nq.subject hs
    · obtain ⟨sid, st1, out1, log1⟩ := r
      dsimp only
      rcases hobj : nq.objectValue with _ | v <;> dsimp only
      · rcases ho : lookupUidF 1 env st1 nq.objectId with e | r2
        · dsimp only
          intro hcontra
          rw [Except.error.injEq] at hcontra
          rw [hcontra] at ho
          exact lookupUidF_one_ne_fuel env st1 nq.objectId ho
        · obtain ⟨oid, st2, out2, log2⟩ := r2
          dsimp only
          rcases hem : emitEntries env nq sid oid (createUidEdge nq sid oid)
            with e | es
          · dsimp only
            intro hcontra
            rw [Except.error.injEq] at hcontra
            rw [hcontra] at hem
            exact emitEntries_ne_fuel env nq sid oid _ hem
          · simp
      · rcases hem : emitEntries env nq sid 0 (createValueEdge nq v sid)
          with e | es
        · dsimp only
          intro hcontra
          rw [Except.error.injEq] at hcontra
          rw [hcontra] at hem
          exact emitEntries_ne_fuel env nq sid 0 _ hem
        · simp

/-- C9: processRDF on an empty statement returns success, emits no map
entries, and is not counted as an error; on a malformed statement it
returns an error, which the worker loop counts in the error counter and
which aborts the process unless the ignore-errors mode is configured, in
which case the statement is skipped and processing continues. -/
theorem C9_statement_error_handling :
    (∀ (fuel : Nat) (penv : ParseEnv) (env : Env) (st : XidMap) (line : String),
        penv.parse line = .empty →
        processRDF fuel penv env st line = .ok (st, [], []))
    ∧ (∀ (fuel : Nat) (penv : ParseEnv) (env : Env) (ls : LoopState) (line : String),
        penv.parse line = .empty →
        runLine fuel penv env ls line = .ok { ls with rdfCount := ls.rdfCount + 1 })
    ∧ (∀ (fuel : Nat) (penv : ParseEnv) (env : Env) (st : XidMap) (line : String),
        penv.parse line = .malformed →
        processRDF fuel penv env st line = .error .parseErr)
    ∧ (∀ (fuel : Nat) (penv : ParseEnv) (env : Env) (ls : LoopState) (line : String),
        penv.parse line = .malformed →
        (env.ignoreErrors = true →
          runLine fuel penv env ls line =
            .ok { ls with errCount := ls.errCount + 1, rdfCount := ls.rdfCount + 1 })
        ∧ (env.ignoreErrors = false →
          runLine fuel penv env ls line = .error .parseErr)) := by
  refine ⟨?_, ?_, ?_, ?_⟩
  · intro fuel penv env st line hparse
    unfold processRDF
    rw [hparse]
  · intro fuel penv env ls line hparse
    unfold runLine processRDF
    rw [hparse]
    simp
  · intro fuel penv env st line hparse
    unfold processRDF
    rw [hparse]
  · intro fuel penv env ls line hparse
    constructor
    · intro hig
      unfold runLine processRDF
      rw [hparse]
      dsimp only [Failure.recoverable]
      rw [hig]
      rfl
    · intro hig
      unfold runLine processRDF
      rw [hparse]
      dsimp only [Failure.recoverable]
      rw [hig]
      rfl

/-- Witness for C9: the empty line and a malformed line under both
error-handling modes. -/
theorem C9_statement_error_handling_witness :
    processRDF 1 penv0 env0 xm0 "" = .ok (xm0, [], [])
    ∧ runLine 1 penv0 env0 ls0 "" = .ok { ls0 with rdfCount := ls0.rdfCount + 1 }
    ∧ processRDF 1 penv0 env0 xm0 "bad" = .error .parseErr
    ∧ runLine 1 penv0 envI ls0 "bad" =
        .ok { ls0 with errCount := ls0.errCount + 1, rdfCount := ls0.rdfCount + 1 }
    ∧ runLine 1 penv0 env0 ls0 "bad" = .error .parseErr :=
  ⟨C9_statement_error_handling.1 1 penv0 env0 xm0 "" (by rfl),
   C9_statement_error_handling.2.1 1 penv0 env0 ls0 "" (by rfl),
   C9_statement_error_handling.2.2.1 1 penv0 env0 xm0 "bad" (by rfl),
   (C9_statement_error_handling.2.2.2 1 penv0 envI ls0 "bad" (by rfl)).1 rfl,
   (C9_statement_error_handling.2.2.2 1 penv0 env0 ls0 "bad" (by rfl)).2 rfl⟩

/-- Witness for C4: a concrete value posting is stored as a full posting
payload with the bare UID left unset. -/
theorem C4_map_entry_payload_exclusive_witness :
    (addMapEntry [3] pV).uid = 0 :=
  (C4_map_entry_payload_exclusive [3] pV).2.2 (by rfl)

end MapperSpec
